import Mathlib

/-!
Verification of the `sdkmaker` Swagger/OpenAPI parsing pipeline
(`SwaggerParser`: `normalizeDoc`, `resolveRefs`, `transformToControllerFormat`,
`parseToDocObject`, `parse`).

The JavaScript/TypeScript source operates on untyped JSON-like trees.  We embed
those trees as the mutual inductive `Js` below (objects keep field insertion
order, as JavaScript objects do for string keys).  JavaScript `undefined` is a
distinct value `Js.undefined`: property access on a missing key yields it, and it
drives truthiness checks and destructuring defaults exactly as in the source.

JavaScript runtime errors (`TypeError` from property access on `null`/
`undefined`, calling `.includes`/`.split` on non-strings) and the custom error
classes thrown by the source are modeled with `Except PError`.

In-place mutation during `resolveRefs`' traversal (`obj[key] = resolveRef(
obj[key])` on the deep-copied document, with `$ref` lookups reading the
current state of that copy) is modeled by explicit state threading: the
traversal carries the root tree and the path of the node being visited, and
each completed field is written back into the root at its path before the
next sibling is processed, matching the order of effects in the source.  A
value returned from a dereference is installed as a copy of the target node
rather than as an alias of it; none of the documents appearing in the
theorems below can distinguish the two, because the source never recurses
into (and hence never later mutates) a node returned from the early-return
branches of `resolveRef`.
-/

set_option maxHeartbeats 1000000

namespace Sdkmaker

mutual
/-- JSON-like JavaScript values, with `undefined` for JavaScript `undefined`. -/
inductive Js where
  | undefined : Js
  | null : Js
  | bool (b : Bool) : Js
  | num (n : Int) : Js
  | str (s : String) : Js
  | arr (xs : JsArr) : Js
  | obj (fs : JsObj) : Js

/-- Array of JavaScript values. -/
inductive JsArr where
  | nil : JsArr
  | cons (hd : Js) (tl : JsArr) : JsArr

/-- Object fields in insertion order. -/
inductive JsObj where
  | nil : JsObj
  | cons (k : String) (v : Js) (tl : JsObj) : JsObj
end

/-- Build a `JsObj` from a list of key/value pairs. -/
def JsObj.ofList : List (String × Js) → JsObj
  | [] => .nil
  | (k, v) :: rest => .cons k v (JsObj.ofList rest)

/-- Build a `JsArr` from a list. -/
def JsArr.ofList : List Js → JsArr
  | [] => .nil
  | v :: rest => .cons v (JsArr.ofList rest)

/-- Object literal from a list of fields. -/
def jobj (l : List (String × Js)) : Js := .obj (JsObj.ofList l)

/-- Array literal from a list of elements. -/
def jarr (l : List Js) : Js := .arr (JsArr.ofList l)

/-- Fields of an object as a list, in insertion order. -/
def JsObj.toList : JsObj → List (String × Js)
  | .nil => []
  | .cons k v rest => (k, v) :: rest.toList

/-- Elements of an array as a list. -/
def JsArr.toList : JsArr → List Js
  | .nil => []
  | .cons v rest => v :: rest.toList

/-- First field with the given key; JavaScript yields `undefined` when the
key is absent. -/
def findField : JsObj → String → Js
  | .nil, _ => .undefined
  | .cons k v rest, key => if k = key then v else findField rest key

/-- Whether an object has a field with the given key (the JavaScript `in`
operator / `hasOwnProperty` on plain objects). -/
def hasField : JsObj → String → Bool
  | .nil, _ => false
  | .cons k _ rest, key => k = key || hasField rest key

/-- JavaScript truthiness. -/
def jsTruthy : Js → Bool
  | .undefined => false
  | .null => false
  | .bool b => b
  | .num n => n != 0
  | .str s => s != ""
  | .arr _ => true
  | .obj _ => true

/-- JavaScript `a || b`. -/
def jsOr (a b : Js) : Js := if jsTruthy a then a else b

/-- Element of a `JsArr` at a numeric index. -/
def JsArr.get : JsArr → Nat → Js
  | .nil, _ => .undefined
  | .cons v _, 0 => v
  | .cons _ rest, n + 1 => rest.get n

mutual
/-- JavaScript string coercion (`String(v)` / template literals), restricted
to the value shapes representable in `Js`. -/
def jsToString : Js → String
  | .undefined => "undefined"
  | .null => "null"
  | .bool b => if b then "true" else "false"
  | .num n => toString n
  | .str s => s
  | .arr xs => jsJoin xs
  | .obj _ => "[object Object]"

/-- The call `Array.prototype.join(",")` used by array-to-string coercion: `null` and
`undefined` elements become the empty string. -/
def jsJoin : JsArr → String
  | .nil => ""
  | .cons v .nil =>
      match v with
      | .undefined => ""
      | .null => ""
      | w => jsToString w
  | .cons v (.cons w rest) =>
      (match v with
       | .undefined => ""
       | .null => ""
       | u => jsToString u) ++ "," ++ jsJoin (.cons w rest)
end

/-- Decimal digit accumulation for `parseCanonicalIndex`. -/
def parseNatAux : List Char → Nat → Option Nat
  | [], acc => some acc
  | c :: rest, acc =>
      if '0' ≤ c && c ≤ '9' then parseNatAux rest (acc * 10 + (c.toNat - 48))
      else none

/-- A property key that is the canonical decimal form of an array index
(JavaScript array indexing: `a["1"]` is an element, `a["01"]` is not). -/
def parseCanonicalIndex (k : String) : Option Nat :=
  match k.toList with
  | [] => none
  | l =>
      match parseNatAux l 0 with
      | none => none
      | some n => if toString n = k then some n else none

/-- Property access `v[k]` on a receiver that is not `null`/`undefined`:
objects look up the field, arrays accept canonical numeric indices, strings
index into their characters, and primitives have no own properties. -/
def Js.prop : Js → String → Js
  | .obj fs, k => findField fs k
  | .arr xs, k =>
      match parseCanonicalIndex k with
      | some n => xs.get n
      | none => .undefined
  | .str s, k =>
      match parseCanonicalIndex k with
      | some n =>
          match s.toList.get? n with
          | some c => .str (String.mk [c])
          | none => .undefined
      | none => .undefined
  | _, _ => .undefined

/-- Errors: the source's custom error classes plus JavaScript runtime
`TypeError`s raised by the untyped code. -/
inductive PError where
  | validation (op msg : String) : PError
  | contentParsing (op msg : String) (attemptedFormats : List String) : PError
  | network (op msg : String) : PError
  | typeError (msg : String) : PError

/-- Property access as an effectful operation: accessing a property of
`null` or `undefined` throws a `TypeError`. -/
def jsGetProp (v : Js) (k : String) : Except PError Js :=
  match v with
  | .undefined => .error (.typeError ("Cannot read properties of undefined (reading " ++ k ++ ")"))
  | .null => .error (.typeError ("Cannot read properties of null (reading " ++ k ++ ")"))
  | w => .ok (w.prop k)

/-- Optional chaining `v?.[k]`: `null`/`undefined` receivers yield
`undefined` instead of throwing. -/
def optChain (v : Js) (k : String) : Js :=
  match v with
  | .undefined => .undefined
  | .null => .undefined
  | w => w.prop k

/-- The operation `Object.entries`, which throws on `null`/`undefined`, lists an object's
fields, indexes an array or string, and is empty on other primitives. -/
def jsEntries (v : Js) : Except PError (List (String × Js)) :=
  match v with
  | .undefined => .error (.typeError "Cannot convert undefined to object")
  | .null => .error (.typeError "Cannot convert null to object")
  | .obj fs => .ok fs.toList
  | .arr xs => .ok (xs.toList.enum.map (fun p => (toString p.1, p.2)))
  | .str s => .ok (s.toList.enum.map (fun p => (toString p.1, Js.str (String.mk [p.2]))))
  | _ => .ok []

/-- Whether `pat` is a prefix of `l`. -/
def isPrefixCharList : List Char → List Char → Bool
  | [], _ => true
  | _ :: _, [] => false
  | p :: ps, c :: cs => p == c && isPrefixCharList ps cs

/-- Whether `pat` occurs as a contiguous run in `l`. -/
def containsCharList (pat : List Char) : List Char → Bool
  | [] => isPrefixCharList pat []
  | c :: rest => isPrefixCharList pat (c :: rest) || containsCharList pat rest

/-- Substring test: JavaScript `String.prototype.includes`. -/
def strContains (s pat : String) : Bool :=
  containsCharList pat.toList s.toList

/-- Remove the first occurrence of `pat` from `l`. -/
def removeFirstCharList (pat : List Char) : List Char → List Char
  | [] => []
  | c :: rest =>
      if isPrefixCharList pat (c :: rest) then (c :: rest).drop pat.length
      else c :: removeFirstCharList pat rest

/-- The method `String.prototype.replace` with a plain-string pattern replaces only the
first occurrence (here with the empty string, as in `ref.replace("#/", "")`). -/
def replaceFirst (s pat : String) : String :=
  String.mk (removeFirstCharList pat.toList s.toList)

/-- The method `String.prototype.split` with a single-character separator. -/
def splitCharAux (c : Char) : List Char → List Char → List (List Char)
  | [], acc => [acc.reverse]
  | d :: rest, acc =>
      if d == c then acc.reverse :: splitCharAux c rest []
      else splitCharAux c rest (d :: acc)

/-- The call `s.split(c)` for a one-character separator string. -/
def splitChar (s : String) (c : Char) : List String :=
  (splitCharAux c s.toList []).map String.mk

/-- One step of a path into a `Js` tree: an object field or an array index. -/
inductive PathStep where
  | fld (k : String) : PathStep
  | idx (n : Nat) : PathStep

mutual
/-- Write `v` at the given path of `root` (the model of an in-place
assignment into the working tree); an invalid path leaves `root` unchanged
(such writes never occur during the traversal below). -/
def setAt : Js → List PathStep → Js → Js
  | _, [], v => v
  | .obj fs, .fld k :: p, v => .obj (setAtField fs k p v)
  | .arr xs, .idx n :: p, v => .arr (setAtIdx xs n p v)
  | root, _, _ => root

/-- Write into the first field with the given key. -/
def setAtField : JsObj → String → List PathStep → Js → JsObj
  | .nil, _, _, _ => .nil
  | .cons k' w rest, k, p, v =>
      if k' = k then .cons k' (setAt w p v) rest
      else .cons k' w (setAtField rest k p v)

/-- Write into the element at the given index. -/
def setAtIdx : JsArr → Nat → List PathStep → Js → JsArr
  | .nil, _, _, _ => .nil
  | .cons w rest, 0, p, v => .cons (setAt w p v) rest
  | .cons w rest, n + 1, p, v => .cons w (setAtIdx rest n p v)
end

mutual
/-- Read the node at the given path of `root`, if the path exists. -/
def getAt : Js → List PathStep → Option Js
  | v, [] => some v
  | .obj fs, .fld k :: p => getAtField fs k p
  | .arr xs, .idx n :: p => getAtIdx xs n p
  | _, _ => none

/-- Read from the first field with the given key. -/
def getAtField : JsObj → String → List PathStep → Option Js
  | .nil, _, _ => none
  | .cons k' w rest, k, p => if k' = k then getAt w p else getAtField rest k p

/-- Read from the element at the given index. -/
def getAtIdx : JsArr → Nat → List PathStep → Option Js
  | .nil, _, _ => none
  | .cons w _, 0, p => getAt w p
  | .cons _ rest, n + 1, p => getAtIdx rest n p
end

mutual
/-- The round trip `JSON.parse(JSON.stringify(x))`, the deep copy taken by `resolveRefs`:
object fields whose value is `undefined` are dropped and `undefined` array
elements become `null`.  (A top-level `undefined` would make `JSON.parse`
throw; `resolveRefs` is never invoked on one, and we map it to `null`.) -/
def roundTrip : Js → Js
  | .undefined => .null
  | .null => .null
  | .bool b => .bool b
  | .num n => .num n
  | .str s => .str s
  | .arr xs => .arr (roundTripArr xs)
  | .obj fs => .obj (roundTripObj fs)

/-- Deep copy of array elements (`undefined` becomes `null`). -/
def roundTripArr : JsArr → JsArr
  | .nil => .nil
  | .cons v rest => .cons (roundTrip v) (roundTripArr rest)

/-- Deep copy of object fields (`undefined`-valued fields are dropped). -/
def roundTripObj : JsObj → JsObj
  | .nil => .nil
  | .cons k v rest =>
      match v with
      | .undefined => roundTripObj rest
      | w => .cons k (roundTrip w) (roundTripObj rest)
end

/-- The pointer walk in `resolveRef`'s parameter branch:
`let pnode = resolved; for (const path of refPath) pnode = pnode[path]`.
Each step is a JavaScript property access, so stepping from `null`/`undefined`
throws. -/
def walkSegs : Js → List String → Except PError Js
  | cur, [] => .ok cur
  | cur, s :: rest => do
      let c ← jsGetProp cur s
      walkSegs c rest

/-- The helper `extractParameterInfo` from the source: a node with truthy `in`, `name`
and `schema` whose schema `type` is exactly the string `"string"` or
`"integer"` becomes a ParameterDescriptor; every other node is returned
unchanged.  `refName` is the pointer's final path segment (`null` for inline
parameters). -/
def extractParameterInfo (pnode : Js) (refName : Option String) : Except PError Js := do
  let inV ← jsGetProp pnode "in"
  if jsTruthy inV && jsTruthy (pnode.prop "name") && jsTruthy (pnode.prop "schema") then
    let schemaV := pnode.prop "schema"
    match schemaV.prop "type" with
    | .str t =>
        if t = "string" || t = "integer" then
          .ok (jobj [
            ("modelName", match refName with | some n => .str n | none => .null),
            ("refType", .str "parameter"),
            ("isReference", .bool (match refName with | some n => n != "" | none => false)),
            ("parameterDetails", jobj [
              ("name", pnode.prop "name"),
              ("type", .str t),
              ("location", inV),
              ("required", .bool (jsTruthy (pnode.prop "required"))),
              ("format", schemaV.prop "format")])])
        else .ok pnode
    | _ => .ok pnode
  else .ok pnode

mutual
/-- The recursive `resolveRef` closure of `resolveRefs`.  `obj` is the node
being visited (its value when the visit starts), `root` the current state of
the deep-copied document that pointer lookups read and in-place assignments
write, `pos` the path of `obj` inside `root`.  Returns the replacement value
and the updated root. -/
def visit : Js → Js → List PathStep → Except PError (Js × Js)
  | .undefined, root, _ => .ok (.undefined, root)
  | .null, root, _ => .ok (.null, root)
  | .bool b, root, _ => .ok (.bool b, root)
  | .num n, root, _ => .ok (.num n, root)
  | .str s, root, _ => .ok (.str s, root)
  | .arr xs, root, pos => do
      let (ys, root') ← visitElems xs root pos 0
      .ok (.arr ys, root')
  | .obj fs, root, pos =>
      let refV := findField fs "$ref"
      if jsTruthy refV then
        match refV with
        | .str r =>
            let parts := splitChar r '/'
            let name := parts.getLastD ""
            if parts.contains "parameters" then do
              let segs := splitChar (replaceFirst r "#/") '/'
              let pd ← walkSegs root segs
              let res ← extractParameterInfo pd (some name)
              .ok (res, root)
            else
              .ok (jobj [
                ("modelName", .str name),
                ("refType", .str (if parts.contains "schemas" then "schema" else "other")),
                ("isReference", .bool true)], root)
        | _ => .error (.typeError "obj.ref.split is not a function")
      else
        if jsTruthy (findField fs "in") && jsTruthy (findField fs "name")
            && jsTruthy (findField fs "schema") then do
          let res ← extractParameterInfo (.obj fs) none
          .ok (res, root)
        else do
          let (fs', root') ← visitFields fs root pos
          .ok (.obj fs', root')

/-- The call `obj.map(item => resolveRef(item))`: a new array is built, and the old
array (still installed in the root) is not written back element by element. -/
def visitElems : JsArr → Js → List PathStep → Nat → Except PError (JsArr × Js)
  | .nil, root, _, _ => .ok (.nil, root)
  | .cons v rest, root, pos, i => do
      let (v', root1) ← visit v root (pos ++ [.idx i])
      let (rest', root2) ← visitElems rest root1 pos (i + 1)
      .ok (.cons v' rest', root2)

/-- The loop `for (const key in obj) obj[key] = resolveRef(obj[key])`: each field's
replacement is written into the root before the next field is visited. -/
def visitFields : JsObj → Js → List PathStep → Except PError (JsObj × Js)
  | .nil, root, _ => .ok (.nil, root)
  | .cons k v rest, root, pos => do
      let (v', root1) ← visit v root (pos ++ [.fld k])
      let root2 := setAt root1 (pos ++ [.fld k]) v'
      let (rest', root3) ← visitFields rest root2 pos
      .ok (.cons k v' rest', root3)
end

/-- The resolver `resolveRefs`: deep-copy the document, then run the traversal with the
copy as both the visited value and the lookup root. -/
def resolveRefs (doc : Js) : Except PError Js := do
  let c := roundTrip doc
  let (res, _) ← visit c c []
  .ok res

/-- The check `validateBasicStructure`: at least one of `swagger`, `openapi`, `info`,
`paths` is an own property (checked in that order; `hasOwnProperty.call`
throws on `null`/`undefined` and is `false` on primitives and arrays). -/
def validateBasicStructure (doc : Js) : Except PError Bool :=
  match doc with
  | .undefined => .error (.typeError "Cannot convert undefined to object")
  | .null => .error (.typeError "Cannot convert null to object")
  | .obj fs => .ok (hasField fs "swagger" || hasField fs "openapi" ||
      hasField fs "info" || hasField fs "paths")
  | _ => .ok false

/-- The JavaScript `in` operator (`'swagger' in doc`): throws on primitives,
checks keys on objects and canonical indices on arrays. -/
def jsHasKey (doc : Js) (k : String) : Except PError Bool :=
  match doc with
  | .obj fs => .ok (hasField fs k)
  | .arr xs =>
      .ok (match parseCanonicalIndex k with
           | some n => decide (n < xs.toList.length)
           | none => false)
  | _ => .error (.typeError "Cannot use in operator to search for swagger")

/-- The normalizer `normalizeDoc`: a document with a `swagger` key is mapped onto the
OpenAPI 3.x shape (synthesizing `servers` from `schemes`/`host`/`basePath`
and relocating the component maps); otherwise fields are copied through with
empty defaults. -/
def normalizeDoc (doc : Js) : Except PError Js := do
  let hs ← jsHasKey doc "swagger"
  if hs then
    .ok (jobj [
      ("openapi",
        match doc.prop "swagger" with
        | .str s => if s = "2.0" then .str "3.0.0" else .str s
        | w => w),
      ("info", doc.prop "info"),
      ("servers",
        if jsTruthy (doc.prop "host") then
          jarr [jobj [("url",
            .str (jsToString (jsOr (optChain (doc.prop "schemes") "0") (.str "https"))
              ++ "://" ++ jsToString (doc.prop "host")
              ++ jsToString (jsOr (doc.prop "basePath") (.str ""))))]]
        else jarr []),
      ("paths", doc.prop "paths"),
      ("components", jobj [
        ("schemas", jsOr (doc.prop "definitions") (jobj [])),
        ("parameters", jsOr (doc.prop "parameters") (jobj [])),
        ("responses", jsOr (doc.prop "responses") (jobj [])),
        ("securitySchemes", jsOr (doc.prop "securityDefinitions") (jobj []))]),
      ("tags", jsOr (doc.prop "tags") (jarr []))])
  else
    .ok (jobj [
      ("openapi", doc.prop "openapi"),
      ("info", doc.prop "info"),
      ("servers", jsOr (doc.prop "servers") (jarr [])),
      ("paths", doc.prop "paths"),
      ("components", jsOr (doc.prop "components") (jobj [])),
      ("tags", jsOr (doc.prop "tags") (jarr []))])

/-- Controller accumulator: controller name to its operation list, in
insertion order of first use of the name. -/
abbrev Controllers := List (String × List Js)

/-- The statement `if (!controllers[tag]) controllers[tag] = []`. -/
def ensureTag (cs : Controllers) (t : String) : Controllers :=
  if cs.any (fun q => q.1 = t) then cs else cs ++ [(t, [])]

/-- The statement `controllers[tag].push(entry)`. -/
def pushTo (cs : Controllers) (t : String) (e : Js) : Controllers :=
  cs.map (fun q => if q.1 = t then (q.1, q.2 ++ [e]) else q)

/-- A spread like `...(operation.summary && { summary: operation.summary })`:
the field is included exactly when its value is truthy. -/
def entryOptField (op : Js) (k : String) : List (String × Js) :=
  if jsTruthy (op.prop k) then [(k, op.prop k)] else []

/-- The operation entry pushed onto a controller's list. -/
def mkEntry (method path : String) (oid : Js) (op : Js) : Js :=
  jobj ([("method", .str method), ("path", .str path), ("operationId", oid)]
    ++ entryOptField op "summary" ++ entryOptField op "parameters"
    ++ entryOptField op "requestBody" ++ entryOptField op "responses")

/-- The key `operation.tags?.[0] || "DefaultController"`, coerced to the string used
as property key of the `controllers` record. -/
def opTag (op : Js) : String :=
  jsToString (jsOr (optChain (op.prop "tags") "0") (.str "DefaultController"))

/-- JavaScript `Array.prototype.includes(s)` for a string argument:
SameValueZero membership, true exactly when some element is strictly equal
to `s` (an element that merely contains `s` as a substring does not
count). -/
def arrIncludesStr : JsArr → String → Bool
  | .nil, _ => false
  | .cons v rest, s =>
      (match v with
       | .str t => t = s
       | _ => false) || arrIncludesStr rest s

/-- The truthy `operationId` values that pass the inclusion filter
`operation.operationId && !operation.operationId.includes("Controller_")` on
a run that does not throw: a non-empty string without the marker substring
(`String.prototype.includes` is a substring test), or an array with no
element strictly equal to the marker string (`Array.prototype.includes` is
element membership).  Any other truthy value has no `.includes` method and
makes the projection throw a `TypeError`. -/
def opIdAdmissible (v : Js) : Bool :=
  match v with
  | .str s => (s != "") && !(strContains s "Controller_")
  | .arr xs => !(arrIncludesStr xs "Controller_")
  | _ => false

/-- The body of the inner `forEach` over a path item's entries.  Note that
`.includes` exists on strings (substring test) and on arrays (element
membership test); other truthy `operationId` values throw. -/
def processOp (path method : String) (op : Js) (cs : Controllers) :
    Except PError Controllers :=
  if jsTruthy op then
    let tag := opTag op
    let cs1 := ensureTag cs tag
    let oid := op.prop "operationId"
    if jsTruthy oid then
      match oid with
      | .str s =>
          if strContains s "Controller_" then .ok cs1
          else .ok (pushTo cs1 tag (mkEntry method path oid op))
      | .arr xs =>
          if arrIncludesStr xs "Controller_" then .ok cs1
          else .ok (pushTo cs1 tag (mkEntry method path oid op))
      | _ => .error (.typeError "operation.operationId.includes is not a function")
    else .ok cs1
  else .ok cs

/-- Fold of `processOp` over one path item's method entries. -/
def processMethods (path : String) : List (String × Js) → Controllers → Except PError Controllers
  | [], cs => .ok cs
  | (m, op) :: rest, cs => do
      let cs' ← processOp path m op cs
      processMethods path rest cs'

/-- Fold over `Object.entries(paths)`. -/
def processPaths : List (String × Js) → Controllers → Except PError Controllers
  | [], cs => .ok cs
  | (p, pi) :: rest, cs => do
      let mes ← jsEntries pi
      let cs' ← processMethods p mes cs
      processPaths rest cs'

/-- The controllers record as a `Js` object. -/
def controllersToJs (cs : Controllers) : Js :=
  jobj (cs.map (fun q => (q.1, jarr q.2)))

/-- The projector `transformToControllerFormat`: destructure the document's metadata,
compute `baseUrl` from the first server, group the operations, and build the
IR object. -/
def transformToControllerFormat (parsedDoc : Js) : Except PError Js := do
  let infoV ← jsGetProp parsedDoc "info"
  let nameV ← jsGetProp infoV "title"
  let descV0 ← jsGetProp infoV "description"
  let descV := match descV0 with | .undefined => Js.str "" | w => w
  let versionV ← jsGetProp infoV "version"
  let serversV := match parsedDoc.prop "servers" with | .undefined => jarr [] | w => w
  let pathsV := parsedDoc.prop "paths"
  let componentsV := match parsedDoc.prop "components" with | .undefined => jobj [] | w => w
  let s0 ← jsGetProp serversV "0"
  let baseUrl := jsOr (optChain s0 "url") (.str "")
  let pes ← jsEntries pathsV
  let cs ← processPaths pes []
  .ok (jobj [
    ("controllers", controllersToJs cs),
    ("components", componentsV),
    ("baseUrl", baseUrl),
    ("name", nameV),
    ("description", descV),
    ("version", versionV)])

/-- The entry point `parse` applied to an already-decoded raw document (the pipeline after
`processContent`): validate, normalize, resolve references, compute the
controller projection of the unresolved document (logged by the source), and
return the controller projection of the resolved document. -/
def parseFromDoc (rawDoc : Js) : Except PError Js := do
  let v ← validateBasicStructure rawDoc
  if v then do
    let n ← normalizeDoc rawDoc
    let r ← resolveRefs n
    let _controllerFormat ← transformToControllerFormat n
    transformToControllerFormat r
  else .error (.validation "parse" "Invalid Swagger/OpenAPI document structure")

/-- External collaborators of the Loader: URL detection and fetching, path
resolution against the working directory, file reading, and the JSON/YAML
decoders.  All are outside this repository (axios, Node `path`/`fs`,
`JSON.parse`, the YAML helper), so they are parameters of the model. -/
structure LoaderEnv where
  isValidUrl : String → Bool
  fetchContent : String → Except String String
  readFile : String → Except String String
  resolvePath : String → String
  jsonParse : String → Option Js
  yamlParse : String → Option Js

/-- Node `path.isAbsolute` on posix paths. -/
def isAbsolutePath (s : String) : Bool :=
  isPrefixCharList ['/'] s.toList

/-- The inline-content heuristic of `parseToDocObject`. -/
def hasInlineMarkers (s : String) : Bool :=
  strContains s "openapi:" || strContains s "\"openapi\":" ||
  strContains s "swagger:" || strContains s "\"swagger\":"

/-- The decoder `processContent`: JSON first, then YAML, else `ContentParsingError`
naming both attempted formats. -/
def processContent (env : LoaderEnv) (content : String) : Except PError Js :=
  match env.jsonParse content with
  | some j => .ok j
  | none =>
      match env.yamlParse content with
      | some j => .ok j
      | none => .error (.contentParsing "processContent"
          "Failed to parse content as JSON or YAML" ["JSON", "YAML"])

/-- The loader `parseToDocObject`: empty input fails; URLs are fetched; a non-URL that
is neither absolute nor marker-bearing is resolved against the working
directory and read from disk (read failure is a `ValidationError`); anything
else is literal content.  The decoded result must pass the basic structure
check. -/
def parseToDocObject (env : LoaderEnv) (input : String) : Except PError Js := do
  if input = "" then
    .error (.validation "parse" "Input is not a valid string")
  else do
    let content ←
      if env.isValidUrl input then
        match env.fetchContent input with
        | .ok c => Except.ok c
        | .error _ => Except.error (PError.network "fetchFromUrl"
            "Failed to fetch Swagger documentation")
      else if !isAbsolutePath input && !hasInlineMarkers input then
        match env.readFile (env.resolvePath input) with
        | .ok c => Except.ok c
        | .error m => Except.error (PError.validation "parse"
            ("Failed to read OpenAPI file: " ++ m))
      else Except.ok input
    let result ← processContent env content
    let v ← validateBasicStructure result
    if v then .ok result
    else .error (.validation "parse" "Invalid Swagger/OpenAPI document structure")

/-- The whole `parse` entry point, from a locator string. -/
def parsePipeline (env : LoaderEnv) (input : String) : Except PError Js := do
  let raw ← parseToDocObject env input
  let n ← normalizeDoc raw
  let r ← resolveRefs n
  let _controllerFormat ← transformToControllerFormat n
  transformToControllerFormat r

mutual
/-- Whether some object node in the tree still carries a `$ref` key (a raw,
unreplaced reference object). -/
def hasRefKey : Js → Bool
  | .obj fs => hasField fs "$ref" || hasRefKeyObj fs
  | .arr xs => hasRefKeyArr xs
  | _ => false

/-- Predicate `hasRefKey` over array elements. -/
def hasRefKeyArr : JsArr → Bool
  | .nil => false
  | .cons v rest => hasRefKey v || hasRefKeyArr rest

/-- Predicate `hasRefKey` over object field values. -/
def hasRefKeyObj : JsObj → Bool
  | .nil => false
  | .cons _ v rest => hasRefKey v || hasRefKeyObj rest
end

mutual
/-- Whether the tree contains no `undefined` value (JSON-serializable trees
such as the output of `JSON.parse` satisfy this). -/
def undefFree : Js → Bool
  | .undefined => false
  | .arr xs => undefFreeArr xs
  | .obj fs => undefFreeObj fs
  | _ => true

/-- Predicate `undefFree` over array elements. -/
def undefFreeArr : JsArr → Bool
  | .nil => true
  | .cons v rest => undefFree v && undefFreeArr rest

/-- Predicate `undefFree` over object field values. -/
def undefFreeObj : JsObj → Bool
  | .nil => true
  | .cons _ v rest => undefFree v && undefFreeObj rest
end

/-- Whether a schema `type` value is exactly the string `"string"` or
`"integer"` (the only parameter schemas the resolver inlines). -/
def isPrimitiveTypeStr (v : Js) : Bool :=
  match v with
  | .str t => t = "string" || t = "integer"
  | _ => false

mutual
/-- A tree on which the resolver's traversal is the identity: no object node
that the traversal visits carries a truthy `$ref`, and every visited node
shaped like a parameter (truthy `in`, `name`, `schema`) has a non-primitive
schema type, so `extractParameterInfo` returns it unchanged (such nodes are
returned without recursing into their fields). -/
def stableJs : Js → Bool
  | .obj fs =>
      if jsTruthy (findField fs "$ref") then false
      else if jsTruthy (findField fs "in") && jsTruthy (findField fs "name")
          && jsTruthy (findField fs "schema") then
        !(isPrimitiveTypeStr ((findField fs "schema").prop "type"))
      else stableObj fs
  | .arr xs => stableArr xs
  | _ => true

/-- Predicate `stableJs` over array elements. -/
def stableArr : JsArr → Bool
  | .nil => true
  | .cons v rest => stableJs v && stableArr rest

/-- Predicate `stableJs` over object field values. -/
def stableObj : JsObj → Bool
  | .nil => true
  | .cons _ v rest => stableJs v && stableObj rest
end

/-- The elements of a `Js` array value (empty for non-arrays). -/
def arrElems (v : Js) : List Js :=
  match v with
  | .arr xs => xs.toList
  | _ => []

/-- The controller-name/operation-list pairs of an IR object. -/
def irControllerLists (ir : Js) : List (String × Js) :=
  match ir.prop "controllers" with
  | .obj fs => fs.toList
  | _ => []

/-- A controller name is present in the accumulator. -/
def keyIn (cs : Controllers) (t : String) : Bool :=
  cs.any (fun q => q.1 = t)

/-- An operation entry is present in the accumulator under a controller
name. -/
def EntryIn (cs : Controllers) (t : String) (e : Js) : Prop :=
  ∃ l, (t, l) ∈ cs ∧ e ∈ l

/-- The property every pushed operation entry satisfies: its `operationId`
is an admissible truthy value — a non-empty string not containing the
internal marker `"Controller_"`, or an array with no element strictly equal
to `"Controller_"`. -/
def entryOk (e : Js) : Prop :=
  opIdAdmissible (e.prop "operationId") = true

/-- All entries of all controller lists satisfy `entryOk`. -/
def AllEntriesOk (cs : Controllers) : Prop :=
  ∀ t l, (t, l) ∈ cs → ∀ e ∈ l, entryOk e

/-! Concrete documents exercising the pipeline (the spec's literal scenarios
and the edge cases examined by the theorems below). -/

/-- The `get` operation of the spec's literal scenario 1. -/
def scenario1GetOp : Js := jobj [
  ("operationId", .str "getTest"),
  ("tags", jarr [.str "TestController"]),
  ("parameters", jarr [jobj [("name", .str "id"), ("in", .str "query")]]),
  ("responses", jobj [("200", jobj [("description", .str "OK")])])]

/-- The `post` operation of scenario 1, whose `operationId` carries the
internal marker. -/
def scenario1PostOp : Js := jobj [
  ("operationId", .str "Controller_postTest"),
  ("tags", jarr [.str "TestController"])]

/-- The `/test` path item of scenario 1. -/
def scenario1PathItem : Js := jobj [("get", scenario1GetOp), ("post", scenario1PostOp)]

/-- The spec's literal scenario 1: one `get` operation with a regular
`operationId` and one `post` operation whose `operationId` carries the
internal marker. -/
def scenario1Doc : Js := jobj [
  ("openapi", .str "3.0.0"),
  ("info", jobj [("title", .str "Test API"), ("version", .str "1.0.0")]),
  ("paths", jobj [("/test", scenario1PathItem)]),
  ("components", jobj [("schemas", jobj [("Test", jobj [("type", .str "object")])])])]

/-- An operation whose `operationId` is an ARRAY whose only element carries
the internal marker as a (proper) substring. -/
def arrayOpIdOp : Js := jobj [
  ("operationId", jarr [.str "Controller_postTest"]),
  ("tags", jarr [.str "T"])]

/-- A document whose only operation has the array `operationId` above:
`["Controller_postTest"].includes("Controller_")` is element membership and
is false, so the real code pushes this operation into its controller's
list even though its identifier textually contains the marker. -/
def arrayOpIdDoc : Js := jobj [
  ("openapi", .str "3.0.0"),
  ("info", jobj [("title", .str "A"), ("version", .str "1")]),
  ("paths", jobj [("/a", jobj [("post", arrayOpIdOp)])])]

/-- The spec's literal scenario 2: a Swagger 2.0 document with
`host`/`schemes`/`basePath`. -/
def scenario2Doc : Js := jobj [
  ("swagger", .str "2.0"),
  ("info", jobj [("title", .str "T"), ("version", .str "1.0.0")]),
  ("host", .str "api.example.com"),
  ("schemes", jarr [.str "https"]),
  ("basePath", .str ""),
  ("paths", jobj [])]

/-- A Swagger 2.0 document whose `host` field is present but is the empty
string (falsy). -/
def emptyHostDoc : Js := jobj [
  ("swagger", .str "2.0"),
  ("info", jobj [("title", .str "H"), ("version", .str "1")]),
  ("host", .str ""),
  ("paths", jobj [])]

/-- The spec's literal scenario 3: a `PageSize` parameter under
`components.parameters`, referenced from an operation. -/
def pageSizeDoc : Js := jobj [
  ("openapi", .str "3.0.0"),
  ("info", jobj [("title", .str "T"), ("version", .str "1")]),
  ("servers", jarr []),
  ("paths", jobj [
    ("/items", jobj [
      ("get", jobj [
        ("operationId", .str "listItems"),
        ("parameters", jarr [jobj [("$ref", .str "#/components/parameters/PageSize")]])])])]),
  ("components", jobj [
    ("parameters", jobj [
      ("PageSize", jobj [
        ("in", .str "query"), ("name", .str "pageSize"), ("required", .bool false),
        ("schema", jobj [("type", .str "integer"), ("format", .str "int32")])])])])]

/-- The descriptor literal scenario 3 resolves to. -/
def pageSizeDescriptor : Js := jobj [
  ("modelName", .str "PageSize"),
  ("refType", .str "parameter"),
  ("isReference", .bool true),
  ("parameterDetails", jobj [
    ("name", .str "pageSize"),
    ("type", .str "integer"),
    ("location", .str "query"),
    ("required", .bool false),
    ("format", .str "int32")])]

/-- A document whose operation references a parameter whose own `schema` is
a `$ref` (a non-primitive parameter target): the dereferenced node is
returned as is and the nested `$ref` survives into the IR. -/
def nestedRefDoc : Js := jobj [
  ("openapi", .str "3.0.0"),
  ("info", jobj [("title", .str "N"), ("version", .str "1")]),
  ("paths", jobj [
    ("/a", jobj [
      ("get", jobj [
        ("operationId", .str "getA"),
        ("tags", jarr [.str "T"]),
        ("parameters", jarr [jobj [("$ref", .str "#/components/parameters/Weird")]])])])]),
  ("components", jobj [
    ("parameters", jobj [
      ("Weird", jobj [
        ("in", .str "query"), ("name", .str "w"),
        ("schema", jobj [("$ref", .str "#/components/schemas/S")])])]),
    ("schemas", jobj [("S", jobj [("type", .str "object")])])])]

/-- A document with a chained parameter reference (`P` points at `Q`): the
one-pass resolver dereferences `P` to the node `{$ref: ...Q}` and returns it
unchanged, leaving a raw `$ref` in the output. -/
def chainedRefDoc : Js := jobj [
  ("openapi", .str "3.0.0"),
  ("info", jobj [("title", .str "C"), ("version", .str "1")]),
  ("servers", jarr []),
  ("paths", jobj [
    ("/a", jobj [
      ("get", jobj [
        ("operationId", .str "getA"),
        ("parameters", jarr [jobj [("$ref", .str "#/components/parameters/P")]])])])]),
  ("components", jobj [
    ("parameters", jobj [
      ("P", jobj [("$ref", .str "#/components/parameters/Q")]),
      ("Q", jobj [
        ("in", .str "query"), ("name", .str "q"), ("required", .bool true),
        ("schema", jobj [("type", .str "string"), ("format", .str "date")])])])])]

/-- A document whose `$ref` pointers form a cycle: schema `A` references
itself, and an operation references `A`. -/
def cyclicRefDoc : Js := jobj [
  ("openapi", .str "3.0.0"),
  ("info", jobj [("title", .str "Y"), ("version", .str "1")]),
  ("paths", jobj [
    ("/a", jobj [
      ("get", jobj [
        ("operationId", .str "getA"),
        ("requestBody", jobj [
          ("content", jobj [
            ("application/json", jobj [
              ("schema", jobj [("$ref", .str "#/components/schemas/A")])])])])])])]),
  ("components", jobj [
    ("schemas", jobj [
      ("A", jobj [("$ref", .str "#/components/schemas/A")])])])]

/-- The tagged `get` operation of `pathLevelValueDoc`. -/
def pathLevelGetOp : Js := jobj [
  ("operationId", .str "getA"),
  ("tags", jarr [.str "T"])]

/-- A path item carrying a truthy non-operation value (a path-level
`description` string) besides a tagged operation. -/
def pathLevelItem : Js := jobj [
  ("get", pathLevelGetOp),
  ("description", .str "path level docs")]

/-- A document in which a path item carries a truthy non-operation value
(a path-level `description` string) besides a tagged operation. -/
def pathLevelValueDoc : Js := jobj [
  ("openapi", .str "3.0.0"),
  ("info", jobj [("title", .str "P"), ("version", .str "1")]),
  ("paths", jobj [("/a", pathLevelItem)])]

/-- The IR `transformToControllerFormat` produces for `pathLevelValueDoc`:
the path-level `description` value spawns a `DefaultController` entry whose
operation list is empty. -/
def pathLevelIR : Js := jobj [
  ("controllers", jobj [
    ("T", jarr [jobj [("method", .str "get"), ("path", .str "/a"),
      ("operationId", .str "getA")]]),
    ("DefaultController", jarr [])]),
  ("components", jobj []),
  ("baseUrl", .str ""),
  ("name", .str "P"),
  ("description", .str ""),
  ("version", .str "1")]

/-- A small already-stable document (no references, no parameter-shaped
nodes): resolution is a no-op on it. -/
def stableDocExample : Js := jobj [
  ("info", jobj [("title", .str "S")]),
  ("values", jarr [.str "x", .num 3, .null, .bool true])]

/-- A well-formed OpenAPI document sitting behind the file-read collaborator
in the loader scenarios. -/
def fileDoc : Js := jobj [
  ("openapi", .str "3.0.0"),
  ("info", jobj [("title", .str "From File"), ("version", .str "2.0.0")]),
  ("paths", jobj [])]

/-- A loader environment: no URL matches, the filesystem holds a valid
document at `/cwd/petstore.json` and at `/tmp/petstore.json` (raw text
`"FILECONTENT"`, which JSON-decodes to `fileDoc`), and the YAML decoder
parses any other text as a plain string scalar. -/
def fileEnv : LoaderEnv where
  isValidUrl := fun _ => false
  fetchContent := fun _ => .error "offline"
  resolvePath := fun s => if isAbsolutePath s then s else "/cwd/" ++ s
  readFile := fun p =>
    if p = "/cwd/petstore.json" then .ok "FILECONTENT"
    else if p = "/tmp/petstore.json" then .ok "FILECONTENT"
    else .error "ENOENT: no such file"
  jsonParse := fun s => if s = "FILECONTENT" then some fileDoc else none
  yamlParse := fun s => some (.str s)

/-- The IR `parse` produces for `scenario1Doc`. -/
def scenario1IR : Js := jobj [
  ("controllers", jobj [
    ("TestController", jarr [jobj [
      ("method", .str "get"), ("path", .str "/test"), ("operationId", .str "getTest"),
      ("parameters", jarr [jobj [("name", .str "id"), ("in", .str "query")]]),
      ("responses", jobj [("200", jobj [("description", .str "OK")])])]])]),
  ("components", jobj [("schemas", jobj [("Test", jobj [("type", .str "object")])])]),
  ("baseUrl", .str ""),
  ("name", .str "Test API"),
  ("description", .str ""),
  ("version", .str "1.0.0")]

/-- The IR `parse` produces for `pageSizeDoc`. -/
def pageSizeIR : Js := jobj [
  ("controllers", jobj [
    ("DefaultController", jarr [jobj [
      ("method", .str "get"), ("path", .str "/items"), ("operationId", .str "listItems"),
      ("parameters", jarr [pageSizeDescriptor])]])]),
  ("components", jobj [
    ("parameters", jobj [
      ("PageSize", jobj [
        ("modelName", .null),
        ("refType", .str "parameter"),
        ("isReference", .bool false),
        ("parameterDetails", jobj [
          ("name", .str "pageSize"), ("type", .str "integer"),
          ("location", .str "query"), ("required", .bool false),
          ("format", .str "int32")])])])]),
  ("baseUrl", .str ""),
  ("name", .str "T"),
  ("description", .str ""),
  ("version", .str "1")]

/-- The IR `parse` produces for `cyclicRefDoc`: the parse completes and every
reference, including the self-referencing schema `A`, is replaced by a named
schema descriptor. -/
def cyclicIR : Js := jobj [
  ("controllers", jobj [
    ("DefaultController", jarr [jobj [
      ("method", .str "get"), ("path", .str "/a"), ("operationId", .str "getA"),
      ("requestBody", jobj [
        ("content", jobj [
          ("application/json", jobj [
            ("schema", jobj [
              ("modelName", .str "A"), ("refType", .str "schema"),
              ("isReference", .bool true)])])])])]])]),
  ("components", jobj [
    ("schemas", jobj [
      ("A", jobj [
        ("modelName", .str "A"), ("refType", .str "schema"),
        ("isReference", .bool true)])])]),
  ("baseUrl", .str ""),
  ("name", .str "Y"),
  ("description", .str ""),
  ("version", .str "1")]

/-- The classification `extractParameterInfo` applies to a dereferenced
parameter node: truthy `in`, `name` and `schema`, with schema `type` exactly
`"string"` or `"integer"`. -/
def isParamPrimitiveNode (pd : Js) : Bool :=
  jsTruthy (pd.prop "in") && jsTruthy (pd.prop "name") && jsTruthy (pd.prop "schema")
    && isPrimitiveTypeStr ((pd.prop "schema").prop "type")

/-- The ParameterDescriptor built for a dereferenced primitive parameter
node under the reference name `name`. -/
def paramDescriptorOf (pd : Js) (name : String) : Js :=
  jobj [
    ("modelName", .str name),
    ("refType", .str "parameter"),
    ("isReference", .bool (name != "")),
    ("parameterDetails", jobj [
      ("name", pd.prop "name"),
      ("type", (pd.prop "schema").prop "type"),
      ("location", pd.prop "in"),
      ("required", .bool (jsTruthy (pd.prop "required"))),
      ("format", (pd.prop "schema").prop "format")])]

/-- The `PageSize` component definition inside `pageSizeDoc`. -/
def pageSizeParamNode : Js := jobj [
  ("in", .str "query"), ("name", .str "pageSize"), ("required", .bool false),
  ("schema", jobj [("type", .str "integer"), ("format", .str "int32")])]

/-! ## Shared lemmas -/

/-- Inversion for a successful `Except` bind. -/
theorem except_bind_ok {α β γ : Type} {x : Except γ α} {f : α → Except γ β} {b : β}
    (h : (x >>= f) = .ok b) : ∃ a, x = .ok a ∧ f a = .ok b := by
  cases x with
  | ok a => exact ⟨a, rfl, h⟩
  | error e => exact absurd h (by simp [Bind.bind, Except.bind])

/-- A successful bind with a known-successful first component. -/
@[simp] theorem except_ok_bind {α β γ : Type} {f : α → Except γ β} (a : α) :
    ((Except.ok a : Except γ α) >>= f) = f a := rfl

/-- A bind whose first component failed. -/
@[simp] theorem except_error_bind {α β γ : Type} {f : α → Except γ β} (e : γ) :
    ((Except.error e : Except γ α) >>= f) = .error e := rfl

/-- The map `JsObj.toList` is a retraction of `JsObj.ofList`. -/
theorem jsObjToList_ofList (l : List (String × Js)) : (JsObj.ofList l).toList = l := by
  induction l with
  | nil => rfl
  | cons p rest ih => cases p; simp [JsObj.ofList, JsObj.toList, ih]

/-- The map `JsArr.toList` is a retraction of `JsArr.ofList`. -/
theorem jsArrToList_ofList (l : List Js) : (JsArr.ofList l).toList = l := by
  induction l with
  | nil => rfl
  | cons v rest ih => simp [JsArr.ofList, JsArr.toList, ih]

/-- The elements of a `jarr` literal. -/
theorem arrElems_jarr (l : List Js) : arrElems (jarr l) = l := by
  simp [arrElems, jarr, jsArrToList_ofList]

/-! ## Claim C2 (counterexample part) -/

/-- C2: counterexample.  For `nestedRefDoc` the parse succeeds, yet the
controllers section of the returned IR still contains a raw `$ref` object:
the operation's parameter dereferenced to a node whose own `schema` is a
`$ref` with a non-primitive target, which the resolver returns unchanged.
So it is not true that no raw `$ref` object remains in any controller's
operation list. -/
theorem C2_counterexample :
    (parseFromDoc nestedRefDoc).map (fun ir => hasRefKey (ir.prop "controllers")) =
      .ok true := by rfl

/-! ## Claim C4 (counterexample part) -/

/-- C4: counterexample.  `emptyHostDoc` is a Swagger 2.0 document whose
`host` field is present (with value `""`), yet normalization produces the
empty `servers` sequence, not the single synthesized URL the claim requires
for every document with `host` present: the code tests `doc.host` for
truthiness, not presence. -/
theorem C4_counterexample :
    emptyHostDoc.prop "host" = .str "" ∧
    (normalizeDoc emptyHostDoc).map (fun d => d.prop "servers") = .ok (jarr []) :=
  ⟨rfl, rfl⟩

/-! ## Claim C6 (counterexample part) -/

/-- C6: counterexample.  `chainedRefDoc` has no reference cycle, yet the
output of one application of `resolveRefs` still contains a `$ref` node (the
chained parameter reference `P -> Q` is dereferenced only one level, to the
raw node `{$ref: #/components/parameters/Q}`), and a second application
changes the tree (it eliminates that `$ref`), so resolution is not
idempotent. -/
theorem C6_counterexample :
    (resolveRefs chainedRefDoc).map hasRefKey = .ok true ∧
    ((resolveRefs chainedRefDoc).bind resolveRefs).map hasRefKey = .ok false :=
  ⟨rfl, rfl⟩

/-! ## Claim C8 -/

/-- C8: counterexample.  `cyclicRefDoc` contains a schema that references
itself, yet reference resolution terminates and the whole parse returns an
IR: the one-pass resolver replaces a schema-classified `$ref` with a named
descriptor without ever following the pointer's target, so a cycle never
causes unbounded recursion, no error of any kind is raised, and an IR is
produced. -/
theorem C8_counterexample :
    (parseFromDoc cyclicRefDoc).map
      (fun ir => ((ir.prop "components").prop "schemas").prop "A") =
    .ok (jobj [("modelName", .str "A"), ("refType", .str "schema"),
               ("isReference", .bool true)]) := by rfl

/-- C8: amended.  A document whose `$ref` pointers form a cycle does not
make the resolver recurse unboundedly and does not fail the parse: the
resolver performs exactly one pass and never resolves into a reference's
target, so `parse` on the cyclic document returns a complete IR in which the
self-referencing schema has become a named schema descriptor. -/
theorem C8_cycle_parse_succeeds : parseFromDoc cyclicRefDoc = .ok cyclicIR := by rfl

/-! ## Claim C9 (counterexample part) -/

/-- C9: counterexample.  The locator `/tmp/petstore.json` is an absolute
filesystem path, is not a URL in this environment, and contains none of the
inline markers; the environment's filesystem holds readable content at that
path which decodes to a valid document.  Still the Loader never reads the
file: the file-read branch requires `!isAbsolute(input)`, so the absolute
path itself is treated as literal content and the parse fails with the
generic structure `ValidationError` instead of using the file's content. -/
theorem C9_counterexample :
    parseToDocObject fileEnv "/tmp/petstore.json" =
      .error (.validation "parse" "Invalid Swagger/OpenAPI document structure") ∧
    fileEnv.readFile (fileEnv.resolvePath "/tmp/petstore.json") = .ok "FILECONTENT" ∧
    processContent fileEnv "FILECONTENT" = .ok fileDoc :=
  ⟨rfl, rfl, rfl⟩

/-- Property access on a receiver other than `null`/`undefined` does not
throw. -/
theorem jsGetProp_ne {pd : Js} (h1 : pd ≠ .null) (h2 : pd ≠ .undefined) (k : String) :
    jsGetProp pd k = .ok (pd.prop k) := by
  cases pd <;> simp_all [jsGetProp]

/-! ## Claim C5 -/

/-- C5: every `$ref` node whose pointer path contains the segment `schemas`
and not `parameters` is replaced by exactly the three-field named handle
`{modelName: final segment, refType: "schema", isReference: true}` — no field
of the referenced schema is inlined, and the working document is left
untouched by the step. -/
theorem C5_schema_ref_named_handle (fs : JsObj) (root : Js) (pos : List PathStep)
    (r : String)
    (href : findField fs "$ref" = .str r) (hne : r ≠ "")
    (hs : "schemas" ∈ splitChar r '/')
    (hp : "parameters" ∉ splitChar r '/') :
    visit (.obj fs) root pos =
      .ok (jobj [("modelName", .str ((splitChar r '/').getLastD "")),
                 ("refType", .str "schema"), ("isReference", .bool true)], root) := by
  simp [visit, href, jsTruthy, hne, hs, hp]

/-- C5: witness at the pointer `#/components/schemas/Pet`. -/
theorem C5_schema_ref_named_handle_witness :
    visit (.obj (JsObj.ofList [("$ref", .str "#/components/schemas/Pet")])) .null [] =
      .ok (jobj [("modelName", .str "Pet"), ("refType", .str "schema"),
                 ("isReference", .bool true)], .null) :=
  C5_schema_ref_named_handle (JsObj.ofList [("$ref", .str "#/components/schemas/Pet")])
    .null [] "#/components/schemas/Pet" rfl (by decide) (by decide) (by decide)

/-! ## Claim C3 -/

/-- C3: the `PageSize` literal scenario resolves the referencing operation's
parameter to the expected ParameterDescriptor (first conjunct), and in
general a parameter-classified `$ref` whose dereferenced target has truthy
`in`/`name`/`schema` and schema type `"string"`/`"integer"` becomes the
ParameterDescriptor named by the pointer's final segment (second conjunct),
while any other dereferenced target is returned unchanged (third
conjunct). -/
theorem C3_parameter_ref_resolution (fs : JsObj) (root : Js) (pos : List PathStep)
    (r : String) (pd : Js)
    (href : findField fs "$ref" = .str r) (hne : r ≠ "")
    (hp : "parameters" ∈ splitChar r '/')
    (hwalk : walkSegs root (splitChar (replaceFirst r "#/") '/') = .ok pd)
    (hnn : pd ≠ .null) (hnu : pd ≠ .undefined) :
    ((resolveRefs pageSizeDoc).map (fun d =>
        ((((d.prop "paths").prop "/items").prop "get").prop "parameters").prop "0") =
      .ok pageSizeDescriptor) ∧
    (isParamPrimitiveNode pd = true →
      visit (.obj fs) root pos =
        .ok (paramDescriptorOf pd ((splitChar r '/').getLastD ""), root)) ∧
    (isParamPrimitiveNode pd = false →
      visit (.obj fs) root pos = .ok (pd, root)) := by
  have hvisit : visit (.obj fs) root pos = (do
      let pd2 ← walkSegs root (splitChar (replaceFirst r "#/") '/')
      let res ← extractParameterInfo pd2 (some ((splitChar r '/').getLastD ""))
      Except.ok (res, root)) := by
    simp [visit, href, jsTruthy, hne, hp]
  refine ⟨by rfl, ?_, ?_⟩
  · intro hprim
    have h4 := hprim
    unfold isParamPrimitiveNode at h4
    rw [Bool.and_eq_true, Bool.and_eq_true, Bool.and_eq_true] at h4
    obtain ⟨⟨⟨hin, hname⟩, hschema⟩, hty⟩ := h4
    rw [hvisit, hwalk, except_ok_bind]
    suffices hext : extractParameterInfo pd
        (some ((splitChar r '/').getLastD "")) =
        .ok (paramDescriptorOf pd ((splitChar r '/').getLastD "")) by
      rw [hext, except_ok_bind]
    unfold extractParameterInfo
    rw [jsGetProp_ne hnn hnu, except_ok_bind]
    have hcond : (jsTruthy (pd.prop "in") && jsTruthy (pd.prop "name")
        && jsTruthy (pd.prop "schema")) = true := by
      rw [hin, hname, hschema]; rfl
    rw [if_pos hcond]
    revert hty
    generalize hts : (pd.prop "schema").prop "type" = ty
    intro hty
    cases ty with
    | str t =>
        have hd : t = "string" ∨ t = "integer" := by
          simpa [isPrimitiveTypeStr] using hty
        rcases hd with h | h <;> subst h <;> simp [paramDescriptorOf, hts]
    | undefined => simp [isPrimitiveTypeStr] at hty
    | null => simp [isPrimitiveTypeStr] at hty
    | bool b => simp [isPrimitiveTypeStr] at hty
    | num n => simp [isPrimitiveTypeStr] at hty
    | arr xs => simp [isPrimitiveTypeStr] at hty
    | obj fs2 => simp [isPrimitiveTypeStr] at hty
  · intro hprim
    rw [hvisit, hwalk, except_ok_bind]
    suffices hext : extractParameterInfo pd
        (some ((splitChar r '/').getLastD "")) = .ok pd by
      rw [hext, except_ok_bind]
    unfold extractParameterInfo
    rw [jsGetProp_ne hnn hnu, except_ok_bind]
    by_cases hc : (jsTruthy (pd.prop "in") && jsTruthy (pd.prop "name")
        && jsTruthy (pd.prop "schema")) = true
    · rw [if_pos hc]
      have hc2 := hc
      rw [Bool.and_eq_true, Bool.and_eq_true] at hc2
      obtain ⟨⟨ha, hb⟩, hcc⟩ := hc2
      have hty : isPrimitiveTypeStr ((pd.prop "schema").prop "type") = false := by
        unfold isParamPrimitiveNode at hprim
        simpa [ha, hb, hcc] using hprim
      revert hty
      generalize hts : (pd.prop "schema").prop "type" = ty
      intro hty
      cases ty with
      | str t =>
          have hd : ¬(t = "string") ∧ ¬(t = "integer") := by
            simpa [isPrimitiveTypeStr] using hty
          simp [hts, hd.1, hd.2]
      | undefined => simp [hts]
      | null => simp [hts]
      | bool b => simp [hts]
      | num n => simp [hts]
      | arr xs => simp [hts]
      | obj fs2 => simp [hts]
    · rw [if_neg hc]

/-- C3: witness.  The pointer walk of `#/components/parameters/PageSize`
lands on the `PageSize` definition, and the `$ref` node resolves to the
claimed ParameterDescriptor. -/
theorem C3_parameter_ref_resolution_witness :
    walkSegs pageSizeDoc ["components", "parameters", "PageSize"] = .ok pageSizeParamNode ∧
    visit (.obj (JsObj.ofList [("$ref", .str "#/components/parameters/PageSize")]))
        pageSizeDoc [] = .ok (pageSizeDescriptor, pageSizeDoc) := by
  constructor
  · rfl
  · have h := (C3_parameter_ref_resolution
      (JsObj.ofList [("$ref", .str "#/components/parameters/PageSize")])
      pageSizeDoc [] "#/components/parameters/PageSize" pageSizeParamNode rfl (by decide)
      (by decide) (by rfl) (by intro h; exact Js.noConfusion h)
      (by intro h; exact Js.noConfusion h)).2.1 (by rfl)
    exact h.trans (by rfl)


/-! ## Claims C6 and C7: traversal lemmas -/

mutual
theorem roundTrip_id : ∀ (v : Js), undefFree v = true → roundTrip v = v
  | .undefined, h => by simp [undefFree] at h
  | .null, _ => rfl
  | .bool _, _ => rfl
  | .num _, _ => rfl
  | .str _, _ => rfl
  | .arr xs, h => by
      simp only [undefFree] at h
      simp [roundTrip, roundTripArr_id xs h]
  | .obj fs, h => by
      simp only [undefFree] at h
      simp [roundTrip, roundTripObj_id fs h]

theorem roundTripArr_id : ∀ (xs : JsArr), undefFreeArr xs = true → roundTripArr xs = xs
  | .nil, _ => rfl
  | .cons v rest, h => by
      simp only [undefFreeArr, Bool.and_eq_true] at h
      simp [roundTripArr, roundTrip_id v h.1, roundTripArr_id rest h.2]

theorem roundTripObj_id : ∀ (fs : JsObj), undefFreeObj fs = true → roundTripObj fs = fs
  | .nil, _ => rfl
  | .cons k v rest, h => by
      simp only [undefFreeObj, Bool.and_eq_true] at h
      have hv := roundTrip_id v h.1
      have hr := roundTripObj_id rest h.2
      cases v with
      | undefined => exact absurd h.1 (by simp [undefFree])
      | null => simp [roundTripObj, hv, hr]
      | bool b => simp [roundTripObj, hv, hr]
      | num n => simp [roundTripObj, hv, hr]
      | str s => simp [roundTripObj, hv, hr]
      | arr xs => simp [roundTripObj, hv, hr]
      | obj fs2 => simp [roundTripObj, hv, hr]
end

mutual
theorem stable_visit : ∀ (v : Js) (root : Js) (pos : List PathStep),
    stableJs v = true → ∃ root2, visit v root pos = .ok (v, root2)
  | .undefined, root, _, _ => ⟨root, rfl⟩
  | .null, root, _, _ => ⟨root, rfl⟩
  | .bool _, root, _, _ => ⟨root, rfl⟩
  | .num _, root, _, _ => ⟨root, rfl⟩
  | .str _, root, _, _ => ⟨root, rfl⟩
  | .arr xs, root, pos, h => by
      obtain ⟨root2, hv⟩ := stable_visitElems xs root pos 0 (by simpa [stableJs] using h)
      exact ⟨root2, by simp [visit, hv, except_ok_bind]⟩
  | .obj fs, root, pos, h => by
      simp only [stableJs] at h
      by_cases href : jsTruthy (findField fs "$ref") = true
      · rw [if_pos href] at h; exact absurd h (by simp)
      · rw [if_neg href] at h
        have href' : jsTruthy (findField fs "$ref") = false := Bool.eq_false_iff.mpr href
        by_cases hins : (jsTruthy (findField fs "in") && jsTruthy (findField fs "name")
            && jsTruthy (findField fs "schema")) = true
        · rw [if_pos hins] at h
          have hprim : isPrimitiveTypeStr (((Js.obj fs).prop "schema").prop "type") = false := by
            simpa [Js.prop] using h
          refine ⟨root, ?_⟩
          have hext : extractParameterInfo (.obj fs) none = .ok (.obj fs) := by
            unfold extractParameterInfo
            rw [jsGetProp_ne (by intro hq; exact Js.noConfusion hq)
              (by intro hq; exact Js.noConfusion hq), except_ok_bind]
            have hc : (jsTruthy ((Js.obj fs).prop "in") && jsTruthy ((Js.obj fs).prop "name")
                && jsTruthy ((Js.obj fs).prop "schema")) = true := by
              simpa [Js.prop] using hins
            rw [if_pos hc]
            revert hprim
            generalize hts : ((Js.obj fs).prop "schema").prop "type" = ty
            intro hprim
            cases ty with
            | str t =>
                have hd : ¬(t = "string") ∧ ¬(t = "integer") := by
                  simpa [isPrimitiveTypeStr] using hprim
                simp [hts, hd.1, hd.2]
            | undefined => simp [hts]
            | null => simp [hts]
            | bool b => simp [hts]
            | num n => simp [hts]
            | arr xs => simp [hts]
            | obj fs2 => simp [hts]
          simp [visit, href', hins, hext, except_ok_bind]
        · rw [if_neg hins] at h
          have hins' := Bool.eq_false_iff.mpr hins
          obtain ⟨root2, hfv⟩ := stable_visitFields fs root pos h
          exact ⟨root2, by simp [visit, href', hins', hfv]⟩

theorem stable_visitElems : ∀ (xs : JsArr) (root : Js) (pos : List PathStep) (i : Nat),
    stableArr xs = true → ∃ root2, visitElems xs root pos i = .ok (xs, root2)
  | .nil, root, _, _, _ => ⟨root, rfl⟩
  | .cons v rest, root, pos, i, h => by
      simp only [stableArr, Bool.and_eq_true] at h
      obtain ⟨r1, h1⟩ := stable_visit v root (pos ++ [.idx i]) h.1
      obtain ⟨r2, h2⟩ := stable_visitElems rest r1 pos (i + 1) h.2
      exact ⟨r2, by simp [visitElems, h1, h2, except_ok_bind]⟩

theorem stable_visitFields : ∀ (fs : JsObj) (root : Js) (pos : List PathStep),
    stableObj fs = true → ∃ root2, visitFields fs root pos = .ok (fs, root2)
  | .nil, root, _, _ => ⟨root, rfl⟩
  | .cons k v rest, root, pos, h => by
      simp only [stableObj, Bool.and_eq_true] at h
      obtain ⟨r1, h1⟩ := stable_visit v root (pos ++ [.fld k]) h.1
      obtain ⟨r3, h3⟩ := stable_visitFields rest (setAt r1 (pos ++ [.fld k]) v) pos h.2
      exact ⟨r3, by simp [visitFields, h1, h3, except_ok_bind]⟩
end


/-! ## Claim C6 (amended part) -/

/-- C6: amended.  One application of `resolveRefs` does not guarantee a
`$ref`-free tree (see the counterexample), so resolution is not idempotent
in general.  It IS a no-op on every already-stable document — one that
contains no `undefined` values (its deep copy is itself), no object with a
truthy `$ref`, and no parameter-shaped node with a primitive schema type.
Stability is a sufficient condition, not a necessary one: for instance a
parameter-classified self-reference is also a fixed point of resolution
although it is not stable. -/
theorem C6_stable_resolve_noop (r : Js) (h1 : roundTrip r = r) (h2 : stableJs r = true) :
    resolveRefs r = .ok r := by
  obtain ⟨root2, hv⟩ := stable_visit r r [] h2
  simp [resolveRefs, h1, hv]

/-- C6: witness at a small stable document. -/
theorem C6_stable_resolve_noop_witness :
    resolveRefs stableDocExample = .ok stableDocExample :=
  C6_stable_resolve_noop stableDocExample (by rfl) (by rfl)

/-! ## Claim C7 -/

/-- C7: the private deep copy `JSON.parse(JSON.stringify(doc))` taken by
`resolveRefs` is node-for-node equal to the caller's document whenever the
document contains no `undefined` value (every decoded document does), and
`resolveRefs` depends on its argument only through that copy: it equals the
traversal run with the copy as both the visited value and the mutable root,
while the caller's tree is never written (all writes in the model target the
root state, which is the copy).  Hence the normalized document that `parse`
later hands to `transformToControllerFormat` is unchanged by resolution. -/
theorem C7_deep_copy_frame (doc : Js) (h : undefFree doc = true) :
    roundTrip doc = doc ∧
    resolveRefs doc = (visit doc doc []).map (fun q => q.1) := by
  have hrt := roundTrip_id doc h
  refine ⟨hrt, ?_⟩
  simp only [resolveRefs, hrt]
  cases hv : visit doc doc [] with
  | ok p => cases p with | mk a b => simp [hv, Except.map]
  | error e => simp [hv, Except.map]

/-- C7: witness at the `PageSize` scenario document. -/
theorem C7_deep_copy_frame_witness :
    roundTrip pageSizeDoc = pageSizeDoc ∧
    resolveRefs pageSizeDoc = (visit pageSizeDoc pageSizeDoc []).map (fun q => q.1) :=
  C7_deep_copy_frame pageSizeDoc (by rfl)

/-! ## Claim C2 (amended part) -/

/-- C2: amended.  The IR returned by `parse` is projected from the
reference-resolved document (not the unresolved normalized one): whenever
`parse` succeeds, its result is `transformToControllerFormat` applied to
`resolveRefs` of the normalized document.  (The claim's further assertion
that no raw `$ref` remains in any controller list is refuted by the
counterexample.) -/
theorem C2_projection_from_resolved (raw ir : Js) (h : parseFromDoc raw = .ok ir) :
    ∃ n r, normalizeDoc raw = .ok n ∧ resolveRefs n = .ok r ∧
      transformToControllerFormat r = .ok ir := by
  unfold parseFromDoc at h
  obtain ⟨v, hv, h⟩ := except_bind_ok h
  cases v with
  | false => simp at h
  | true =>
      simp only [if_true] at h
      obtain ⟨n, hn, h⟩ := except_bind_ok h
      obtain ⟨r, hr, h⟩ := except_bind_ok h
      obtain ⟨cf, hcf, h⟩ := except_bind_ok h
      exact ⟨n, r, hn, hr, h⟩

/-- C2: witness at the `PageSize` document. -/
theorem C2_projection_from_resolved_witness :
    ∃ n r, normalizeDoc pageSizeDoc = .ok n ∧ resolveRefs n = .ok r ∧
      transformToControllerFormat r = .ok pageSizeIR :=
  C2_projection_from_resolved pageSizeDoc pageSizeIR (by rfl)

/-! ## Claim C9 (amended part) -/

/-- C9: amended.  Only a locator that is not a URL, is NOT an absolute path,
and carries no inline markers is read from the filesystem, at the path
resolved against the working directory: a failing read surfaces as a
`ValidationError` naming the resolution failure, and a successful read
feeds the file's content (not the locator) to the decoder. -/
theorem C9_relative_file_read (env : LoaderEnv) (input : String)
    (hurl : env.isValidUrl input = false) (habs : isAbsolutePath input = false)
    (hmark : hasInlineMarkers input = false) (hne : ¬(input = "")) :
    (∀ m, env.readFile (env.resolvePath input) = .error m →
        parseToDocObject env input =
          .error (.validation "parse" ("Failed to read OpenAPI file: " ++ m))) ∧
    (∀ c d, env.readFile (env.resolvePath input) = .ok c →
        processContent env c = .ok d → validateBasicStructure d = .ok true →
        parseToDocObject env input = .ok d) := by
  have hstep : parseToDocObject env input =
      (match env.readFile (env.resolvePath input) with
       | .ok c => do
          let result ← processContent env c
          let v ← validateBasicStructure result
          if v then Except.ok result
          else Except.error (PError.validation "parse"
            "Invalid Swagger/OpenAPI document structure")
       | .error m => Except.error (PError.validation "parse"
           ("Failed to read OpenAPI file: " ++ m))) := by
    simp [parseToDocObject, hurl, habs, hmark, hne]
  constructor
  · intro m hm
    rw [hstep, hm]
  · intro c d hc hpc hvb
    rw [hstep, hc]
    simp [hpc, hvb]

/-- C9: witness — a relative locator is read from the resolved path. -/
theorem C9_relative_file_read_witness :
    parseToDocObject fileEnv "petstore.json" = .ok fileDoc :=
  (C9_relative_file_read fileEnv "petstore.json" rfl rfl rfl (by decide)).2
    "FILECONTENT" fileDoc rfl rfl rfl



/-! ## Claim C4 (amended part) -/

/-- C4: amended.  For a document carrying a `swagger` key, normalization
rewrites `swagger: "2.0"` to `openapi: "3.0.0"` and passes any other
`swagger` value through unchanged; `servers` is the single synthesized URL
`(schemes[0] falsy-defaulted to "https") + "://" + host + (basePath
falsy-defaulted to "")` when `host` is truthy (non-empty) — not merely
present — and the empty sequence when `host` is falsy; and `components`
maps `definitions`/`parameters`/`responses`/`securityDefinitions` onto
`schemas`/`parameters`/`responses`/`securitySchemes` (with empty-object
defaults). -/
theorem C4_swagger2_normalization (doc : Js) (h : jsHasKey doc "swagger" = .ok true) :
    ∃ nd, normalizeDoc doc = .ok nd ∧
      (doc.prop "swagger" = .str "2.0" → nd.prop "openapi" = .str "3.0.0") ∧
      (∀ v, doc.prop "swagger" = v → v ≠ .str "2.0" → nd.prop "openapi" = v) ∧
      (jsTruthy (doc.prop "host") = true → nd.prop "servers" =
        jarr [jobj [("url",
          .str (jsToString (jsOr (optChain (doc.prop "schemes") "0") (.str "https"))
            ++ "://" ++ jsToString (doc.prop "host")
            ++ jsToString (jsOr (doc.prop "basePath") (.str ""))))]]) ∧
      (jsTruthy (doc.prop "host") = false → nd.prop "servers" = jarr []) ∧
      nd.prop "components" = jobj [
        ("schemas", jsOr (doc.prop "definitions") (jobj [])),
        ("parameters", jsOr (doc.prop "parameters") (jobj [])),
        ("responses", jsOr (doc.prop "responses") (jobj [])),
        ("securitySchemes", jsOr (doc.prop "securityDefinitions") (jobj []))] := by
  have hnd : normalizeDoc doc = .ok (jobj [
      ("openapi",
        match doc.prop "swagger" with
        | .str s => if s = "2.0" then .str "3.0.0" else .str s
        | w => w),
      ("info", doc.prop "info"),
      ("servers",
        if jsTruthy (doc.prop "host") then
          jarr [jobj [("url",
            .str (jsToString (jsOr (optChain (doc.prop "schemes") "0") (.str "https"))
              ++ "://" ++ jsToString (doc.prop "host")
              ++ jsToString (jsOr (doc.prop "basePath") (.str ""))))]]
        else jarr []),
      ("paths", doc.prop "paths"),
      ("components", jobj [
        ("schemas", jsOr (doc.prop "definitions") (jobj [])),
        ("parameters", jsOr (doc.prop "parameters") (jobj [])),
        ("responses", jsOr (doc.prop "responses") (jobj [])),
        ("securitySchemes", jsOr (doc.prop "securityDefinitions") (jobj []))]),
      ("tags", jsOr (doc.prop "tags") (jarr []))]) := by
    simp [normalizeDoc, h]
  refine ⟨_, hnd, ?_, ?_, ?_, ?_, ?_⟩
  · intro hs
    simp only [hs]
    simp [Js.prop, jobj, JsObj.ofList, findField]
  · intro v hv hvne
    simp only [hv]
    cases v with
    | str s =>
        have hsne : ¬(s = "2.0") := by
          intro hq; exact hvne (by rw [hq])
        simp [Js.prop, jobj, JsObj.ofList, findField, hsne]
    | undefined => simp [Js.prop, jobj, JsObj.ofList, findField]
    | null => simp [Js.prop, jobj, JsObj.ofList, findField]
    | bool b => simp [Js.prop, jobj, JsObj.ofList, findField]
    | num n => simp [Js.prop, jobj, JsObj.ofList, findField]
    | arr xs => simp [Js.prop, jobj, JsObj.ofList, findField]
    | obj fs => simp [Js.prop, jobj, JsObj.ofList, findField]
  · intro ht
    simp only [ht]
    simp [Js.prop, jobj, JsObj.ofList, findField]
  · intro ht
    simp only [ht]
    simp [Js.prop, jobj, JsObj.ofList, findField]
  · simp [Js.prop, jobj, JsObj.ofList, findField]

/-- C4: witness at the literal scenario 2 document. -/
theorem C4_swagger2_normalization_witness :
    jsTruthy (scenario2Doc.prop "host") = true ∧
    ∃ nd, normalizeDoc scenario2Doc = .ok nd ∧
      nd.prop "openapi" = .str "3.0.0" ∧
      nd.prop "servers" = jarr [jobj [("url", .str "https://api.example.com")]] := by
  refine ⟨rfl, ?_⟩
  obtain ⟨nd, hnd, hopen, _, hserv, _, _⟩ := C4_swagger2_normalization scenario2Doc (by rfl)
  exact ⟨nd, hnd, hopen (by rfl), (hserv (by rfl)).trans (by rfl)⟩


/-! ## Claims C1 and C10: controller-grouping lemmas -/

theorem keyIn_exists {cs : Controllers} {t : String} (h : keyIn cs t = true) :
    ∃ l, (t, l) ∈ cs := by
  simp only [keyIn, List.any_eq_true, decide_eq_true_eq] at h
  obtain ⟨⟨t0, l⟩, hm, he⟩ := h
  dsimp at he
  subst he
  exact ⟨l, hm⟩

theorem keyIn_ensureTag_self (cs : Controllers) (t : String) :
    keyIn (ensureTag cs t) t = true := by
  unfold ensureTag keyIn
  split
  · assumption
  · simp

theorem keyIn_ensureTag_mono {cs : Controllers} {t : String} (t2 : String)
    (h : keyIn cs t = true) : keyIn (ensureTag cs t2) t = true := by
  unfold ensureTag
  split
  · exact h
  · simp only [keyIn, List.any_append] at h ⊢
    simp [h]

theorem keyIn_pushTo (cs : Controllers) (t2 : String) (x : Js) (t : String) :
    keyIn (pushTo cs t2 x) t = keyIn cs t := by
  induction cs with
  | nil => rfl
  | cons q rest ih =>
      cases q with
      | mk t0 l =>
          simp only [pushTo, List.map_cons, keyIn, List.any_cons] at ih ⊢
          by_cases h0 : t0 = t2 <;> simp [h0, ih]

theorem entryIn_ensureTag {cs : Controllers} {t : String} {e : Js} (t2 : String)
    (h : EntryIn cs t e) : EntryIn (ensureTag cs t2) t e := by
  obtain ⟨l, hm, he⟩ := h
  unfold ensureTag
  split
  · exact ⟨l, hm, he⟩
  · exact ⟨l, List.mem_append_left _ hm, he⟩

theorem entryIn_pushTo {cs : Controllers} {t : String} {e : Js} (t2 : String) (x : Js)
    (h : EntryIn cs t e) : EntryIn (pushTo cs t2 x) t e := by
  obtain ⟨l, hm, he⟩ := h
  have hmem := List.mem_map_of_mem (f := fun q => if q.1 = t2 then (q.1, q.2 ++ [x]) else q) hm
  by_cases ht : t = t2
  · refine ⟨l ++ [x], ?_, List.mem_append_left _ he⟩
    simpa [pushTo, ht] using hmem
  · refine ⟨l, ?_, he⟩
    simpa [pushTo, ht] using hmem

theorem entryIn_pushTo_self {cs : Controllers} {t : String} (x : Js)
    (h : keyIn cs t = true) : EntryIn (pushTo cs t x) t x := by
  obtain ⟨l, hm⟩ := keyIn_exists h
  have hmem := List.mem_map_of_mem (f := fun q => if q.1 = t then (q.1, q.2 ++ [x]) else q) hm
  refine ⟨l ++ [x], ?_, List.mem_append_right _ (by simp)⟩
  simpa [pushTo] using hmem



theorem processOp_cases (p m : String) (op : Js) (cs : Controllers) :
    (jsTruthy op = false ∧ processOp p m op cs = .ok cs) ∨
    processOp p m op cs = .ok (ensureTag cs (opTag op)) ∨
    (opIdAdmissible (op.prop "operationId") = true ∧
      processOp p m op cs = .ok (pushTo (ensureTag cs (opTag op)) (opTag op)
        (mkEntry m p (op.prop "operationId") op))) ∨
    (∃ err, processOp p m op cs = .error err) := by
  by_cases hop : jsTruthy op = true
  · by_cases hoid : jsTruthy (op.prop "operationId") = true
    · cases hov : op.prop "operationId" with
      | str s =>
          rw [hov] at hoid
          have hs : s ≠ "" := by simpa [jsTruthy] using hoid
          by_cases hcs : strContains s "Controller_" = true
          · right; left
            simp [processOp, hop, hov, hoid, hcs]
          · have hcs' := Bool.eq_false_iff.mpr hcs
            right; right; left
            constructor
            · simp [opIdAdmissible, hs, hcs']
            · simp [processOp, hop, hov, hoid, hcs']
      | arr xs =>
          rw [hov] at hoid
          by_cases hcs : arrIncludesStr xs "Controller_" = true
          · right; left
            simp [processOp, hop, hov, hoid, hcs]
          · have hcs' := Bool.eq_false_iff.mpr hcs
            right; right; left
            constructor
            · simp [opIdAdmissible, hcs']
            · simp [processOp, hop, hov, hoid, hcs']
      | undefined => rw [hov] at hoid; simp [jsTruthy] at hoid
      | null => rw [hov] at hoid; simp [jsTruthy] at hoid
      | bool b =>
          rw [hov] at hoid
          right; right; right
          refine ⟨.typeError "operation.operationId.includes is not a function", ?_⟩
          simp [processOp, hop, hov, hoid]
      | num n =>
          rw [hov] at hoid
          right; right; right
          refine ⟨.typeError "operation.operationId.includes is not a function", ?_⟩
          simp [processOp, hop, hov, hoid]
      | obj fs =>
          rw [hov] at hoid
          right; right; right
          refine ⟨.typeError "operation.operationId.includes is not a function", ?_⟩
          simp [processOp, hop, hov, hoid]
    · right; left
      have hoid' := Bool.eq_false_iff.mpr hoid
      simp [processOp, hop, hoid']
  · left
    have hop' := Bool.eq_false_iff.mpr hop
    exact ⟨hop', by simp [processOp, hop']⟩

theorem processOp_ok_elim {p m : String} {op : Js} {cs cs2 : Controllers}
    (h : processOp p m op cs = .ok cs2) :
    (jsTruthy op = false ∧ cs2 = cs) ∨ cs2 = ensureTag cs (opTag op) ∨
    (opIdAdmissible (op.prop "operationId") = true ∧
      cs2 = pushTo (ensureTag cs (opTag op)) (opTag op)
        (mkEntry m p (op.prop "operationId") op)) := by
  rcases processOp_cases p m op cs with ⟨hf, hq⟩ | hq | ⟨hadm, hq⟩ | ⟨err, hq⟩
  · rw [hq] at h; left; exact ⟨hf, (Except.ok.injEq _ _).mp h.symm⟩
  · rw [hq] at h; right; left; exact (Except.ok.injEq _ _).mp h.symm
  · rw [hq] at h; right; right
    exact ⟨hadm, (Except.ok.injEq _ _).mp h.symm⟩
  · rw [hq] at h; exact absurd h (by simp)

theorem processOp_mono {p m : String} {op : Js} {cs cs2 : Controllers}
    (h : processOp p m op cs = .ok cs2) :
    (∀ t e, EntryIn cs t e → EntryIn cs2 t e) ∧
    (∀ t, keyIn cs t = true → keyIn cs2 t = true) := by
  rcases processOp_ok_elim h with ⟨_, hq⟩ | hq | ⟨_, hq⟩ <;> subst hq
  · exact ⟨fun t e he => he, fun t hk => hk⟩
  · exact ⟨fun t e he => entryIn_ensureTag _ he, fun t hk => keyIn_ensureTag_mono _ hk⟩
  · refine ⟨fun t e he => entryIn_pushTo _ _ (entryIn_ensureTag _ he), fun t hk => ?_⟩
    rw [keyIn_pushTo]
    exact keyIn_ensureTag_mono _ hk

theorem processOp_keyIn {p m : String} {op : Js} {cs cs2 : Controllers}
    (hop : jsTruthy op = true) (h : processOp p m op cs = .ok cs2) :
    keyIn cs2 (opTag op) = true := by
  rcases processOp_ok_elim h with ⟨hf, hq⟩ | hq | ⟨_, hq⟩
  · rw [hop] at hf; exact absurd hf (by simp)
  · subst hq; exact keyIn_ensureTag_self cs (opTag op)
  · subst hq; rw [keyIn_pushTo]; exact keyIn_ensureTag_self cs (opTag op)

theorem processOp_push {p m : String} {op : Js} (cs : Controllers)
    (hop : jsTruthy op = true)
    (hadm : opIdAdmissible (op.prop "operationId") = true) :
    processOp p m op cs = .ok (pushTo (ensureTag cs (opTag op)) (opTag op)
      (mkEntry m p (op.prop "operationId") op)) := by
  cases hov : op.prop "operationId" with
  | str s =>
      rw [hov] at hadm
      simp only [opIdAdmissible, Bool.and_eq_true, Bool.not_eq_true'] at hadm
      have hoid : jsTruthy (Js.str s) = true := hadm.1
      simp [processOp, hop, hov, hoid, hadm.2]
  | arr xs =>
      rw [hov] at hadm
      simp only [opIdAdmissible, Bool.not_eq_true'] at hadm
      have hoid : jsTruthy (Js.arr xs) = true := rfl
      simp [processOp, hop, hov, hoid, hadm]
  | undefined => rw [hov] at hadm; simp [opIdAdmissible] at hadm
  | null => rw [hov] at hadm; simp [opIdAdmissible] at hadm
  | bool b => rw [hov] at hadm; simp [opIdAdmissible] at hadm
  | num n => rw [hov] at hadm; simp [opIdAdmissible] at hadm
  | obj fs => rw [hov] at hadm; simp [opIdAdmissible] at hadm

theorem entryOk_mkEntry {m p : String} {op v : Js}
    (hadm : opIdAdmissible v = true) : entryOk (mkEntry m p v op) := by
  unfold entryOk
  have hpv : (mkEntry m p v op).prop "operationId" = v := by
    simp [mkEntry, jobj, Js.prop, JsObj.ofList, findField]
  rw [hpv]
  exact hadm

theorem allOk_nil : AllEntriesOk [] := by
  intro t l hm e he
  exact absurd hm (List.not_mem_nil _)

theorem allOk_ensureTag {cs : Controllers} (t2 : String) (h : AllEntriesOk cs) :
    AllEntriesOk (ensureTag cs t2) := by
  intro t l hm e he
  unfold ensureTag at hm
  split at hm
  · exact h t l hm e he
  · rcases List.mem_append.mp hm with hm2 | hm2
    · exact h t l hm2 e he
    · rcases List.mem_singleton.mp hm2 with hq
      cases hq
      exact absurd he (List.not_mem_nil _)

theorem allOk_pushTo {cs : Controllers} {x : Js} (t2 : String)
    (h : AllEntriesOk cs) (hx : entryOk x) : AllEntriesOk (pushTo cs t2 x) := by
  intro t l hm e he
  obtain ⟨⟨t0, l0⟩, hm0, hf⟩ := List.mem_map.mp hm
  dsimp at hf
  by_cases h0 : t0 = t2
  · rw [if_pos h0] at hf
    injection hf with hf1 hf2
    subst hf1; subst hf2
    rcases List.mem_append.mp he with he2 | he2
    · exact h _ _ hm0 e he2
    · rw [List.mem_singleton.mp he2]; exact hx
  · rw [if_neg h0] at hf
    injection hf with hf1 hf2
    subst hf1; subst hf2
    exact h _ _ hm0 e he

theorem processOp_allOk {p m : String} {op : Js} {cs cs2 : Controllers}
    (h : processOp p m op cs = .ok cs2) (hall : AllEntriesOk cs) : AllEntriesOk cs2 := by
  rcases processOp_ok_elim h with ⟨_, hq⟩ | hq | ⟨hadm, hq⟩ <;> subst hq
  · exact hall
  · exact allOk_ensureTag _ hall
  · exact allOk_pushTo _ (allOk_ensureTag _ hall) (entryOk_mkEntry hadm)



theorem processMethods_mono {p : String} : ∀ {mes : List (String × Js)}
    {cs cs2 : Controllers}, processMethods p mes cs = .ok cs2 →
    (∀ t e, EntryIn cs t e → EntryIn cs2 t e) ∧
    (∀ t, keyIn cs t = true → keyIn cs2 t = true)
  | [], cs, cs2, h => by
      unfold processMethods at h
      injection h with h2
      subst h2
      exact ⟨fun t e he => he, fun t hk => hk⟩
  | (m, op) :: rest, cs, cs2, h => by
      unfold processMethods at h
      obtain ⟨cs1, h1, h2⟩ := except_bind_ok h
      have ih := processMethods_mono h2
      have g1 := processOp_mono h1
      exact ⟨fun t e he => ih.1 t e (g1.1 t e he), fun t hk => ih.2 t (g1.2 t hk)⟩

theorem processMethods_allOk {p : String} : ∀ {mes : List (String × Js)}
    {cs cs2 : Controllers}, processMethods p mes cs = .ok cs2 →
    AllEntriesOk cs → AllEntriesOk cs2
  | [], cs, cs2, h, hall => by
      unfold processMethods at h
      injection h with h2
      subst h2
      exact hall
  | (m, op) :: rest, cs, cs2, h, hall => by
      unfold processMethods at h
      obtain ⟨cs1, h1, h2⟩ := except_bind_ok h
      exact processMethods_allOk h2 (processOp_allOk h1 hall)

theorem processMethods_keyIn {p : String} : ∀ {mes : List (String × Js)}
    {cs cs2 : Controllers} {m : String} {op : Js},
    processMethods p mes cs = .ok cs2 → (m, op) ∈ mes → jsTruthy op = true →
    keyIn cs2 (opTag op) = true
  | [], cs, cs2, m, op, h, hm, hop => absurd hm (List.not_mem_nil _)
  | (m0, op0) :: rest, cs, cs2, m, op, h, hm, hop => by
      unfold processMethods at h
      obtain ⟨cs1, h1, h2⟩ := except_bind_ok h
      rcases List.mem_cons.mp hm with hm0 | hm0
      · injection hm0 with hma hmb
        subst hma; subst hmb
        exact (processMethods_mono h2).2 _ (processOp_keyIn hop h1)
      · exact processMethods_keyIn h2 hm0 hop

theorem processMethods_push {p : String} : ∀ {mes : List (String × Js)}
    {cs cs2 : Controllers} {m : String} {op : Js},
    processMethods p mes cs = .ok cs2 → (m, op) ∈ mes → jsTruthy op = true →
    opIdAdmissible (op.prop "operationId") = true →
    EntryIn cs2 (opTag op) (mkEntry m p (op.prop "operationId") op)
  | [], cs, cs2, m, op, h, hm, _, _ => absurd hm (List.not_mem_nil _)
  | (m0, op0) :: rest, cs, cs2, m, op, h, hm, hop, hadm => by
      unfold processMethods at h
      obtain ⟨cs1, h1, h2⟩ := except_bind_ok h
      rcases List.mem_cons.mp hm with hm0 | hm0
      · injection hm0 with hma hmb
        subst hma; subst hmb
        rw [processOp_push cs hop hadm] at h1
        injection h1 with h1e
        subst h1e
        have hin := entryIn_pushTo_self (mkEntry m p (op.prop "operationId") op)
          (keyIn_ensureTag_self cs (opTag op))
        exact (processMethods_mono h2).1 _ _ hin
      · exact processMethods_push h2 hm0 hop hadm

theorem processPaths_mono : ∀ {pes : List (String × Js)} {cs cs2 : Controllers},
    processPaths pes cs = .ok cs2 →
    (∀ t e, EntryIn cs t e → EntryIn cs2 t e) ∧
    (∀ t, keyIn cs t = true → keyIn cs2 t = true)
  | [], cs, cs2, h => by
      unfold processPaths at h
      injection h with h2
      subst h2
      exact ⟨fun t e he => he, fun t hk => hk⟩
  | (p, pi) :: rest, cs, cs2, h => by
      unfold processPaths at h
      obtain ⟨mes, hmes, h⟩ := except_bind_ok h
      obtain ⟨cs1, h1, h2⟩ := except_bind_ok h
      have ih := processPaths_mono h2
      have g1 := processMethods_mono h1
      exact ⟨fun t e he => ih.1 t e (g1.1 t e he), fun t hk => ih.2 t (g1.2 t hk)⟩

theorem processPaths_allOk : ∀ {pes : List (String × Js)} {cs cs2 : Controllers},
    processPaths pes cs = .ok cs2 → AllEntriesOk cs → AllEntriesOk cs2
  | [], cs, cs2, h, hall => by
      unfold processPaths at h
      injection h with h2
      subst h2
      exact hall
  | (p, pi) :: rest, cs, cs2, h, hall => by
      unfold processPaths at h
      obtain ⟨mes, hmes, h⟩ := except_bind_ok h
      obtain ⟨cs1, h1, h2⟩ := except_bind_ok h
      exact processPaths_allOk h2 (processMethods_allOk h1 hall)

theorem processPaths_keyIn : ∀ {pes : List (String × Js)} {cs cs2 : Controllers}
    {p : String} {pi : Js} {mes : List (String × Js)} {m : String} {op : Js},
    processPaths pes cs = .ok cs2 → (p, pi) ∈ pes → jsEntries pi = .ok mes →
    (m, op) ∈ mes → jsTruthy op = true → keyIn cs2 (opTag op) = true
  | [], cs, cs2, p, pi, mes, m, op, h, hm, _, _, _ => absurd hm (List.not_mem_nil _)
  | (p0, pi0) :: rest, cs, cs2, p, pi, mes, m, op, h, hm, hme, hmem, hop => by
      unfold processPaths at h
      obtain ⟨mes0, hmes0, h⟩ := except_bind_ok h
      obtain ⟨cs1, h1, h2⟩ := except_bind_ok h
      rcases List.mem_cons.mp hm with hm0 | hm0
      · injection hm0 with hma hmb
        subst hma; subst hmb
        rw [hme] at hmes0
        injection hmes0 with hmes0e
        subst hmes0e
        exact (processPaths_mono h2).2 _ (processMethods_keyIn h1 hmem hop)
      · exact processPaths_keyIn h2 hm0 hme hmem hop

theorem processPaths_push : ∀ {pes : List (String × Js)} {cs cs2 : Controllers}
    {p : String} {pi : Js} {mes : List (String × Js)} {m : String} {op : Js},
    processPaths pes cs = .ok cs2 → (p, pi) ∈ pes → jsEntries pi = .ok mes →
    (m, op) ∈ mes → jsTruthy op = true →
    opIdAdmissible (op.prop "operationId") = true →
    EntryIn cs2 (opTag op) (mkEntry m p (op.prop "operationId") op)
  | [], cs, cs2, p, pi, mes, m, op, h, hm, _, _, _, _ =>
      absurd hm (List.not_mem_nil _)
  | (p0, pi0) :: rest, cs, cs2, p, pi, mes, m, op, h, hm, hme, hmem, hop, hadm => by
      unfold processPaths at h
      obtain ⟨mes0, hmes0, h⟩ := except_bind_ok h
      obtain ⟨cs1, h1, h2⟩ := except_bind_ok h
      rcases List.mem_cons.mp hm with hm0 | hm0
      · injection hm0 with hma hmb
        subst hma; subst hmb
        rw [hme] at hmes0
        injection hmes0 with hmes0e
        subst hmes0e
        exact (processPaths_mono h2).1 _ _ (processMethods_push h1 hmem hop hadm)
      · exact processPaths_push h2 hm0 hme hmem hop hadm

theorem transform_inv {doc ir : Js} (h : transformToControllerFormat doc = .ok ir) :
    ∃ pes cs, jsEntries (doc.prop "paths") = .ok pes ∧ processPaths pes [] = .ok cs ∧
      irControllerLists ir = cs.map (fun q => (q.1, jarr q.2)) := by
  unfold transformToControllerFormat at h
  obtain ⟨infoV, hinfo, h⟩ := except_bind_ok h
  obtain ⟨nameV, hname, h⟩ := except_bind_ok h
  obtain ⟨descV0, hdesc, h⟩ := except_bind_ok h
  obtain ⟨versionV, hver, h⟩ := except_bind_ok h
  obtain ⟨s0, hs0, h⟩ := except_bind_ok h
  obtain ⟨pes, hpes, h⟩ := except_bind_ok h
  obtain ⟨cs, hcs, h⟩ := except_bind_ok h
  injection h with h2
  subst h2
  refine ⟨pes, cs, hpes, hcs, ?_⟩
  simp [irControllerLists, Js.prop, jobj, JsObj.ofList, findField, controllersToJs,
    jsObjToList_ofList]



/-! ## Claim C1 -/

/-- C1: counterexample.  `arrayOpIdDoc`'s only operation has
`operationId: ["Controller_postTest"]`, an identifier that textually
contains the internal marker, yet the projection succeeds and the operation
IS present in controller `T`'s list: `Array.prototype.includes` tests
element membership, not substrings, so the filter does not drop it.  This
refutes the claim that every operation whose `operationId` contains the
marker substring is absent from every controller's operation list. -/
theorem C1_counterexample :
    (transformToControllerFormat arrayOpIdDoc).map (fun ir =>
      (((ir.prop "controllers").prop "T").prop "0").prop "operationId") =
      .ok (jarr [.str "Controller_postTest"]) ∧
    strContains "Controller_postTest" "Controller_" = true :=
  ⟨rfl, rfl⟩

/-- C1: amended.  An operation is present in some controller's operation
list exactly when it is truthy and its `operationId` passes the code's
`operationId && !operationId.includes("Controller_")` test: a non-empty
string not containing the marker substring, or an array with no element
strictly equal to the marker string (an element merely containing the
marker as a substring is NOT filtered out); any other truthy `operationId`
aborts the projection with a `TypeError`.  First conjunct (only if): every
entry of every controller's operation list carries such an admissible
`operationId`.  Second conjunct (if): every truthy operation with an
admissible `operationId` appears, as its projected entry, in its
controller's operation list. -/
theorem C1_admissible_filter_iff (doc ir : Js)
    (h : transformToControllerFormat doc = .ok ir) :
    (∀ t lv, (t, lv) ∈ irControllerLists ir → ∀ e ∈ arrElems lv, entryOk e) ∧
    (∀ pes p pi mes m op,
      jsEntries (doc.prop "paths") = .ok pes → (p, pi) ∈ pes →
      jsEntries pi = .ok mes → (m, op) ∈ mes →
      jsTruthy op = true → opIdAdmissible (op.prop "operationId") = true →
      ∃ lv, (opTag op, lv) ∈ irControllerLists ir ∧
        mkEntry m p (op.prop "operationId") op ∈ arrElems lv) := by
  obtain ⟨pes0, cs, hpes0, hcs, hctl⟩ := transform_inv h
  constructor
  · intro t lv hm e he
    rw [hctl] at hm
    obtain ⟨⟨t0, l0⟩, hm0, hf⟩ := List.mem_map.mp hm
    dsimp at hf
    injection hf with hf1 hf2
    subst hf1; subst hf2
    rw [arrElems_jarr] at he
    exact processPaths_allOk hcs allOk_nil t0 l0 hm0 e he
  · intro pes p pi mes m op hpes hpm hme hmem hop hadm
    rw [hpes] at hpes0
    injection hpes0 with he0
    subst he0
    obtain ⟨l, hml, hel⟩ := processPaths_push hcs hpm hme hmem hop hadm
    refine ⟨jarr l, ?_, ?_⟩
    · rw [hctl]
      exact List.mem_map_of_mem _ hml
    · rw [arrElems_jarr]
      exact hel

/-- C1: witness at the spec's literal scenario 1 (the `getTest` operation is
present, and every present entry passes the filter — in particular the
`Controller_postTest` operation appears in no list). -/
theorem C1_admissible_filter_iff_witness :
    transformToControllerFormat scenario1Doc = .ok scenario1IR ∧
    (∃ lv, ("TestController", lv) ∈ irControllerLists scenario1IR ∧
      mkEntry "get" "/test" (.str "getTest") scenario1GetOp ∈ arrElems lv) ∧
    (∀ t lv, (t, lv) ∈ irControllerLists scenario1IR → ∀ e ∈ arrElems lv, entryOk e) := by
  have happ := C1_admissible_filter_iff scenario1Doc scenario1IR (by rfl)
  refine ⟨by rfl, ?_, happ.1⟩
  exact happ.2 [("/test", scenario1PathItem)] "/test" scenario1PathItem
    [("get", scenario1GetOp), ("post", scenario1PostOp)] "get" scenario1GetOp
    (by rfl) (List.mem_singleton.mpr rfl) (by rfl) (List.mem_cons_self _ _)
    (by rfl) (by rfl)

/-! ## Claim C10 -/

/-- C10: `transformToControllerFormat` treats every truthy value of a path
item as if it named an operation: it creates a controller entry keyed by the
value's first tag (or `"DefaultController"` when it has no usable tags), and
for a non-operation value nothing is pushed, so the controllers mapping can
contain keys whose operation lists are empty — as the concrete
`pathLevelValueDoc` (second conjunct) shows for its path-level
`description` string. -/
theorem C10_path_item_controller_keys (doc ir : Js) (pes : List (String × Js))
    (p : String) (pi : Js) (mes : List (String × Js)) (m : String) (v : Js)
    (h : transformToControllerFormat doc = .ok ir)
    (hpes : jsEntries (doc.prop "paths") = .ok pes) (hpm : (p, pi) ∈ pes)
    (hme : jsEntries pi = .ok mes) (hmem : (m, v) ∈ mes)
    (hop : jsTruthy v = true) :
    (∃ lv, (opTag v, lv) ∈ irControllerLists ir) ∧
    (transformToControllerFormat pathLevelValueDoc).map
      (fun ir2 => (ir2.prop "controllers").prop "DefaultController") = .ok (jarr []) := by
  constructor
  · obtain ⟨pes0, cs, hpes0, hcs, hctl⟩ := transform_inv h
    rw [hpes] at hpes0
    injection hpes0 with he0
    subst he0
    obtain ⟨l, hml⟩ := keyIn_exists (processPaths_keyIn hcs hpm hme hmem hop)
    refine ⟨jarr l, ?_⟩
    rw [hctl]
    exact List.mem_map_of_mem _ hml
  · rfl

/-- C10: witness — the path-level `description` value of
`pathLevelValueDoc` spawns the empty `DefaultController` entry. -/
theorem C10_path_item_controller_keys_witness :
    transformToControllerFormat pathLevelValueDoc = .ok pathLevelIR ∧
    (∃ lv, ("DefaultController", lv) ∈ irControllerLists pathLevelIR) ∧
    (pathLevelIR.prop "controllers").prop "DefaultController" = jarr [] := by
  refine ⟨by rfl, ?_, by rfl⟩
  exact (C10_path_item_controller_keys pathLevelValueDoc pathLevelIR
    [("/a", pathLevelItem)] "/a" pathLevelItem
    [("get", pathLevelGetOp), ("description", .str "path level docs")]
    "description" (.str "path level docs")
    (by rfl) (by rfl) (List.mem_singleton.mpr rfl) (by rfl)
    (List.mem_cons_of_mem _ (List.mem_singleton.mpr rfl)) (by rfl)).1


end Sdkmaker
